import Mathlib

/-!
VibrationControl (firmware/owl_main/VibrationControl.h).

A shallow embedding of the soft-start vibration motor controller.

* Machine integers are natural numbers; the two places where the C++ code
  truncates are explicit: subtraction of `unsigned long` clock readings
  (32 bits on the ESP32) is `ulongSub`, and `static_cast<uint8_t>` is
  `castUInt8`.
* `millis()` is an input: every operation that reads the clock takes the
  reading as an argument.
* The LEDC peripheral is an output: every operation returns the new
  controller state together with the list of LEDC calls it issued, in order.
* `Serial` output is a diagnostic sink and is not modelled.
-/

namespace OwlCompanion

/-! ## Machine arithmetic -/

/-- Number of values of `unsigned long` on the ESP32 (32 bits). -/
def ULONG_MOD : Nat := 4294967296

/-- Number of values of `uint8_t`. -/
def UINT8_MOD : Nat := 256

/-- Subtraction of two `unsigned long` values: the difference modulo `2^32`. -/
def ulongSub (a b : Nat) : Nat :=
  (a % ULONG_MOD + (ULONG_MOD - b % ULONG_MOD)) % ULONG_MOD

/-- The conversion `static_cast<uint8_t>(x)` of a non-negative `int`. -/
def castUInt8 (x : Nat) : Nat := x % UINT8_MOD

/-- The constant `RAMP_STEP`: PWM steps for soft start. -/
def RAMP_STEP : Nat := 25

/-- The constant `RAMP_INTERVAL`: milliseconds between duty changes. -/
def RAMP_INTERVAL : Nat := 5

/-! ## The LEDC peripheral -/

/-- One call to the LEDC (PWM) driver. -/
inductive LedcCall where
  | setup (channel freq resolution : Nat)
  | attachPin (pin channel : Nat)
  | write (channel duty : Nat)
  deriving DecidableEq, Repr

/-- The duty values written by a sequence of LEDC calls, oldest first. -/
def dutyWrites : List LedcCall → List Nat
  | [] => []
  | LedcCall.write _ duty :: rest => duty :: dutyWrites rest
  | _ :: rest => dutyWrites rest

/-- The most recent duty value written, if any. -/
def lastDuty (log : List LedcCall) : Option Nat := (dutyWrites log).getLast?

/-! ## The controller -/

/-- The fields of `class VibrationControl`. -/
structure VibrationControl where
  motorPin : Nat
  pwmChannel : Nat
  pwmFreq : Nat
  pwmResolution : Nat
  isActive : Bool
  startTime : Nat
  duration : Nat
  currentDuty : Nat
  targetDuty : Nat
  lastRampUpdate : Nat
  deriving DecidableEq, Repr

/-- The constructor. Its initialiser list leaves `targetDuty` and
`lastRampUpdate` uninitialised; their indeterminate values are the
arguments `targetDuty0` and `lastRampUpdate0`. -/
def VibrationControl.ctor (pin channel freq res targetDuty0 lastRampUpdate0 : Nat) :
    VibrationControl × List LedcCall :=
  ({ motorPin := pin, pwmChannel := channel, pwmFreq := freq, pwmResolution := res,
     isActive := false, startTime := 0, duration := 0, currentDuty := 0,
     targetDuty := targetDuty0, lastRampUpdate := lastRampUpdate0 },
   [LedcCall.setup channel freq res, LedcCall.attachPin pin channel,
    LedcCall.write channel 0])

/-- The method `start(durationMs, maxDuty)`, with `now` the value of `millis()`. -/
def VibrationControl.start (s : VibrationControl) (now durationMs maxDuty : Nat) :
    VibrationControl × List LedcCall :=
  ({ s with isActive := true, startTime := now, duration := durationMs,
            currentDuty := 0, targetDuty := maxDuty, lastRampUpdate := now },
   [])

/-- The method `stop()`. -/
def VibrationControl.stop (s : VibrationControl) : VibrationControl × List LedcCall :=
  ({ s with isActive := false, currentDuty := 0 }, [LedcCall.write s.pwmChannel 0])

/-- The ramp block of `update()` (the first `if` of its body), entered with
`currentTime` already read. -/
def VibrationControl.rampStep (s : VibrationControl) (currentTime : Nat) :
    VibrationControl × List LedcCall :=
  if s.currentDuty < s.targetDuty ∧ RAMP_INTERVAL ≤ ulongSub currentTime s.lastRampUpdate then
    ({ s with currentDuty := min (castUInt8 (s.currentDuty + RAMP_STEP)) s.targetDuty,
              lastRampUpdate := currentTime },
     [LedcCall.write s.pwmChannel (min (castUInt8 (s.currentDuty + RAMP_STEP)) s.targetDuty)])
  else
    (s, [])

/-- The method `update()`, with `now` the value of `millis()`. -/
def VibrationControl.update (s : VibrationControl) (now : Nat) :
    VibrationControl × List LedcCall :=
  if s.isActive = false then (s, [])
  else
    if (s.rampStep now).1.duration ≤ ulongSub now s.startTime then
      (((s.rampStep now).1.stop).1, (s.rampStep now).2 ++ ((s.rampStep now).1.stop).2)
    else
      s.rampStep now

/-- The method `isRunning()`. -/
def VibrationControl.isRunning (s : VibrationControl) : Bool := s.isActive

/-! ## Sequences of calls -/

/-- A call of one of the public mutating methods, with the clock reading it
observes. -/
inductive Call where
  | start (now durationMs maxDuty : Nat)
  | stop
  | update (now : Nat)
  deriving DecidableEq, Repr

/-- Perform one call. -/
def VibrationControl.call (s : VibrationControl) : Call → VibrationControl × List LedcCall
  | Call.start now durationMs maxDuty => s.start now durationMs maxDuty
  | Call.stop => s.stop
  | Call.update now => s.update now

/-- Perform a sequence of calls from a controller and the log of LEDC calls
issued so far; the log grows at its end. -/
def run (w : VibrationControl × List LedcCall) : List Call → VibrationControl × List LedcCall
  | [] => w
  | c :: cs => run ((w.1.call c).1, w.2 ++ (w.1.call c).2) cs

/-- The calls `update()` at the clock readings `t0 + step`, `t0 + 2 * step`, ...,
`t0 + n * step`. -/
def updatesEvery (step t0 : Nat) : Nat → List Call
  | 0 => []
  | n + 1 => Call.update (t0 + step) :: updatesEvery step (t0 + step) n

/-- The calls `update()` at the given clock readings, in order. -/
def updatesAt (ts : List Nat) : List Call := ts.map Call.update

/-- Each reading of the list is at least `RAMP_INTERVAL` after the one before it
(the first one after `prev`), in the elapsed time the code computes. -/
def Spaced (prev : Nat) : List Nat → Prop
  | [] => True
  | t :: ts => RAMP_INTERVAL ≤ ulongSub t prev ∧ Spaced t ts

/-- The arguments of a call fit the C++ types they have: clock readings and
`durationMs` are `unsigned long`, `maxDuty` is `uint8_t`. -/
def Call.wellTyped : Call → Bool
  | Call.start now durationMs maxDuty =>
    decide (now < ULONG_MOD) && decide (durationMs < ULONG_MOD) && decide (maxDuty < UINT8_MOD)
  | Call.stop => true
  | Call.update now => decide (now < ULONG_MOD)

/-- Deciding `Spaced` on given readings. -/
instance decidableSpaced : (prev : Nat) → (ts : List Nat) → Decidable (Spaced prev ts)
  | _, [] => isTrue trivial
  | prev, t :: ts =>
    match Nat.decLe RAMP_INTERVAL (ulongSub t prev), decidableSpaced t ts with
    | isTrue h1, isTrue h2 => isTrue ⟨h1, h2⟩
    | isFalse h1, _ => isFalse (fun h => h1 h.1)
    | _, isFalse h2 => isFalse (fun h => h2 h.2)

/-- The clock readings `t0 + step`, `t0 + 2 * step`, ..., `t0 + n * step`. -/
def readingsEvery (step t0 : Nat) : Nat → List Nat
  | 0 => []
  | n + 1 => (t0 + step) :: readingsEvery step (t0 + step) n

/-- None of the first `k` wrapped sums `25 * j mod 256`, `j = 0, ..., k`, has
reached the target `m`. -/
def belowTarget (m k : Nat) : Prop := ∀ j, j ≤ k → 25 * j % 256 < m

/-- The controller `st` as it is `k` ramp-spaced updates into an episode
`start(d, m)` begun at reading `t0`, the last of those updates at reading `prev`:
still ramping at `25 * k mod 256` if no wrapped sum has reached the target so
far, and at the target otherwise. -/
def RampAfter (t0 d m k prev : Nat) (st : VibrationControl) : Prop :=
  st.isActive = true ∧ st.startTime = t0 ∧ st.duration = d ∧ st.targetDuty = m ∧
  (belowTarget m k → st.currentDuty = 25 * k % 256 ∧ st.lastRampUpdate = prev) ∧
  (¬ belowTarget m k → st.currentDuty = m)

/-! ## Basic facts -/

theorem dutyWrites_append (a b : List LedcCall) :
    dutyWrites (a ++ b) = dutyWrites a ++ dutyWrites b := by
  induction a with
  | nil => rfl
  | cons x xs ih => cases x <;> simp [dutyWrites, ih]

theorem lastDuty_append_write (a : List LedcCall) (channel duty : Nat) :
    lastDuty (a ++ [LedcCall.write channel duty]) = some duty := by
  simp [lastDuty, dutyWrites_append, dutyWrites]

theorem lastDuty_append_nil (a : List LedcCall) : lastDuty (a ++ []) = lastDuty a := by
  simp

theorem rampStep_isActive (s : VibrationControl) (t : Nat) :
    (s.rampStep t).1.isActive = s.isActive := by
  unfold VibrationControl.rampStep; split <;> rfl

theorem rampStep_duration (s : VibrationControl) (t : Nat) :
    (s.rampStep t).1.duration = s.duration := by
  unfold VibrationControl.rampStep; split <;> rfl

theorem rampStep_startTime (s : VibrationControl) (t : Nat) :
    (s.rampStep t).1.startTime = s.startTime := by
  unfold VibrationControl.rampStep; split <;> rfl

theorem rampStep_targetDuty (s : VibrationControl) (t : Nat) :
    (s.rampStep t).1.targetDuty = s.targetDuty := by
  unfold VibrationControl.rampStep; split <;> rfl

theorem rampStep_pwmChannel (s : VibrationControl) (t : Nat) :
    (s.rampStep t).1.pwmChannel = s.pwmChannel := by
  unfold VibrationControl.rampStep; split <;> rfl

theorem rampStep_currentDuty_le (s : VibrationControl) (t : Nat)
    (h : s.currentDuty ≤ s.targetDuty) :
    (s.rampStep t).1.currentDuty ≤ (s.rampStep t).1.targetDuty := by
  unfold VibrationControl.rampStep
  split
  · exact Nat.min_le_right _ _
  · exact h

/-- When the deadline test of `update()` succeeds on an active controller, the
result is the stopped controller and the last LEDC call is the zero write. -/
theorem update_of_deadline (s : VibrationControl) (now : Nat) (ha : s.isActive = true)
    (hd : s.duration ≤ ulongSub now s.startTime) :
    s.update now =
      (((s.rampStep now).1.stop).1,
        (s.rampStep now).2 ++ [LedcCall.write s.pwmChannel 0]) := by
  unfold VibrationControl.update
  rw [if_neg (by simp [ha]), if_pos (by rw [rampStep_duration]; exact hd)]
  simp [VibrationControl.stop, rampStep_pwmChannel]

/-- When the deadline test of `update()` fails on an active controller, the
result is that of the ramp block alone. -/
theorem update_of_before_deadline (s : VibrationControl) (now : Nat)
    (ha : s.isActive = true) (hd : ulongSub now s.startTime < s.duration) :
    s.update now = s.rampStep now := by
  unfold VibrationControl.update
  rw [if_neg (by simp [ha]), if_neg (by rw [rampStep_duration]; omega)]

/-- The ramp block does nothing when its condition fails. -/
theorem rampStep_of_not_gate (s : VibrationControl) (t : Nat)
    (h : ¬ (s.currentDuty < s.targetDuty ∧ RAMP_INTERVAL ≤ ulongSub t s.lastRampUpdate)) :
    s.rampStep t = (s, []) := by
  unfold VibrationControl.rampStep
  rw [if_neg h]

/-- The ramp block when its condition holds. -/
theorem rampStep_of_gate (s : VibrationControl) (t : Nat)
    (h : s.currentDuty < s.targetDuty ∧ RAMP_INTERVAL ≤ ulongSub t s.lastRampUpdate) :
    s.rampStep t =
      ({ s with currentDuty := min (castUInt8 (s.currentDuty + RAMP_STEP)) s.targetDuty,
                lastRampUpdate := t },
       [LedcCall.write s.pwmChannel (min (castUInt8 (s.currentDuty + RAMP_STEP)) s.targetDuty)]) := by
  unfold VibrationControl.rampStep
  rw [if_pos h]

/-- A property of the controller and the LEDC log that every call preserves
holds after every sequence of calls. -/
theorem run_preserves (P : VibrationControl × List LedcCall → Prop)
    (hstep : ∀ (w : VibrationControl × List LedcCall) (c : Call),
      P w → P ((w.1.call c).1, w.2 ++ (w.1.call c).2))
    (calls : List Call) :
    ∀ w : VibrationControl × List LedcCall, P w → P (run w calls) := by
  induction calls with
  | nil => intro w hw; exact hw
  | cons c cs ih => intro w hw; exact ih _ (hstep w c hw)

/-- Every call keeps `currentDuty ≤ targetDuty`. -/
theorem call_currentDuty_le (s : VibrationControl) (c : Call)
    (h : s.currentDuty ≤ s.targetDuty) :
    (s.call c).1.currentDuty ≤ (s.call c).1.targetDuty := by
  cases c with
  | start now durationMs maxDuty => exact Nat.zero_le _
  | stop => exact Nat.zero_le _
  | update now =>
    show (s.update now).1.currentDuty ≤ (s.update now).1.targetDuty
    unfold VibrationControl.update
    split
    · exact h
    · split
      · exact Nat.zero_le _
      · exact rampStep_currentDuty_le s now h

/-- Every call keeps `currentDuty = 0` on an idle controller. -/
theorem call_idle_zero (s : VibrationControl) (c : Call)
    (h : s.isActive = false → s.currentDuty = 0) :
    (s.call c).1.isActive = false → (s.call c).1.currentDuty = 0 := by
  cases c with
  | start now durationMs maxDuty => intro _; rfl
  | stop => intro _; rfl
  | update now =>
    show (s.update now).1.isActive = false → (s.update now).1.currentDuty = 0
    unfold VibrationControl.update
    split
    · exact h
    · rename_i ha
      split
      · intro _; rfl
      · intro hi
        rw [rampStep_isActive] at hi
        exact absurd hi ha

/-- Every call keeps: `currentDuty` is the last duty written, or the controller
is active with `currentDuty = 0`. -/
theorem call_mirror (w : VibrationControl × List LedcCall) (c : Call)
    (h : lastDuty w.2 = some w.1.currentDuty ∨ (w.1.isActive = true ∧ w.1.currentDuty = 0)) :
    lastDuty (w.2 ++ (w.1.call c).2) = some (w.1.call c).1.currentDuty ∨
      ((w.1.call c).1.isActive = true ∧ (w.1.call c).1.currentDuty = 0) := by
  cases c with
  | start now durationMs maxDuty => exact Or.inr ⟨rfl, rfl⟩
  | stop => exact Or.inl (lastDuty_append_write _ _ _)
  | update now =>
    show lastDuty (w.2 ++ (w.1.update now).2) = some (w.1.update now).1.currentDuty ∨
      ((w.1.update now).1.isActive = true ∧ (w.1.update now).1.currentDuty = 0)
    cases ha : w.1.isActive with
    | false =>
      have hu : w.1.update now = (w.1, []) := by
        unfold VibrationControl.update; rw [if_pos ha]
      rw [hu]
      simpa using h
    | true =>
      by_cases hd : w.1.duration ≤ ulongSub now w.1.startTime
      · rw [update_of_deadline w.1 now ha hd]
        left
        rw [← List.append_assoc]
        exact lastDuty_append_write _ _ _
      · rw [update_of_before_deadline w.1 now ha (by omega)]
        by_cases hg : w.1.currentDuty < w.1.targetDuty ∧
            RAMP_INTERVAL ≤ ulongSub now w.1.lastRampUpdate
        · rw [rampStep_of_gate w.1 now hg]
          left
          exact lastDuty_append_write _ _ _
        · rw [rampStep_of_not_gate w.1 now hg]
          simpa using h

/-! ## Claims -/

/-- Claim C1 (deadline): from any prior state, after `start(durationMs, maxDuty)`
at clock reading `t0`, one `update()` at a clock reading `t1` whose elapsed time
since `t0` (the 32-bit difference the code computes) is at least `durationMs`
leaves `isRunning()` false and `currentDuty` zero, and the last duty written by
that update is 0. -/
theorem deadline_stops (s : VibrationControl) (t0 t1 durationMs maxDuty : Nat)
    (h : durationMs ≤ ulongSub t1 t0) :
    (((s.start t0 durationMs maxDuty).1.update t1).1.isRunning = false) ∧
    (((s.start t0 durationMs maxDuty).1.update t1).1.currentDuty = 0) ∧
    (lastDuty ((s.start t0 durationMs maxDuty).1.update t1).2 = some 0) := by
  have hu := update_of_deadline (s.start t0 durationMs maxDuty).1 t1 rfl h
  rw [hu]
  refine ⟨rfl, rfl, ?_⟩
  exact lastDuty_append_write _ _ _

/-- Witness for C1: `start(100, 255)` at reading `2^32 - 6` on a freshly
constructed controller, then `update()` at reading 94, after the counter has
wrapped (elapsed 100). -/
theorem deadline_stops_witness :
    (100 ≤ ulongSub 94 4294967290) ∧
    ((((VibrationControl.ctor 4 0 200 8 0 0).1.start 4294967290 100 255).1.update 94).1.isRunning
        = false) ∧
    ((((VibrationControl.ctor 4 0 200 8 0 0).1.start 4294967290 100 255).1.update 94).1.currentDuty
        = 0) ∧
    (lastDuty (((VibrationControl.ctor 4 0 200 8 0 0).1.start 4294967290 100 255).1.update 94).2
        = some 0) :=
  ⟨by decide,
   deadline_stops (VibrationControl.ctor 4 0 200 8 0 0).1 4294967290 94 100 255 (by decide)⟩

/-- Claim C2 (start postcondition, restart): from any prior state,
`start(durationMs, maxDuty)` at clock reading `t` yields `isActive = true`,
`startTime = t`, `duration = durationMs`, `currentDuty = 0`,
`targetDuty = maxDuty`, `lastRampUpdate = t`, leaves the configuration fields
alone and issues no LEDC call. -/
theorem start_postcondition (s : VibrationControl) (t durationMs maxDuty : Nat) :
    s.start t durationMs maxDuty =
      ({ motorPin := s.motorPin, pwmChannel := s.pwmChannel, pwmFreq := s.pwmFreq,
         pwmResolution := s.pwmResolution, isActive := true, startTime := t,
         duration := durationMs, currentDuty := 0, targetDuty := maxDuty,
         lastRampUpdate := t }, []) := by
  rfl

/-- Claim C3 (monotone ramp), evaluated on the code: after `start(1000, 255)` at
reading 0 and `update()` every 5 ms, the tenth update leaves `currentDuty = 250`;
the eleventh, at 55 ms, leaves the controller active with `currentDuty = 19`,
because `static_cast<uint8_t>(250 + 25)` is 19. The duty has decreased. -/
theorem ramp_not_monotone_at_255 :
    (run (VibrationControl.ctor 4 0 200 8 0 0)
        (Call.start 0 1000 255 :: updatesEvery 5 0 10)).1.isActive = true ∧
    (run (VibrationControl.ctor 4 0 200 8 0 0)
        (Call.start 0 1000 255 :: updatesEvery 5 0 10)).1.currentDuty = 250 ∧
    (run (VibrationControl.ctor 4 0 200 8 0 0)
        (Call.start 0 1000 255 :: updatesEvery 5 0 11)).1.isActive = true ∧
    (run (VibrationControl.ctor 4 0 200 8 0 0)
        (Call.start 0 1000 255 :: updatesEvery 5 0 11)).1.currentDuty = 19 := by
  decide

/-- Claim C4 (scenario `start(100, 255)`, `update()` every 5 ms), evaluated on the
code: the duties written by the twenty updates up to 100 ms are 25, 50, ..., 250,
then 19, 44, ..., 244 (the step after 250 wraps to 19 instead of clamping to 255),
and finally 0; after the update at 100 ms `isRunning()` is false. -/
theorem scenario_100ms_255_writes :
    dutyWrites (run ((VibrationControl.ctor 4 0 200 8 0 0).1.start 0 100 255)
        (updatesEvery 5 0 20)).2 =
      [25, 50, 75, 100, 125, 150, 175, 200, 225, 250,
       19, 44, 69, 94, 119, 144, 169, 194, 219, 244, 0] ∧
    (run ((VibrationControl.ctor 4 0 200 8 0 0).1.start 0 100 255)
        (updatesEvery 5 0 20)).1.isRunning = false := by
  decide

/-- Claim C5 (ramp step), evaluated on the code: in the active state with
`currentDuty = 250`, `targetDuty = 255`, `lastRampUpdate = 50`, the ramp
condition holds at reading 55 and the ramp block sets `currentDuty` to 19 and
writes 19, whereas `min (250 + 25) 255 = 255`. -/
theorem rampStep_wraps_at_250 :
    (250 < 255 ∧ RAMP_INTERVAL ≤ ulongSub 55 50) ∧
    ({ motorPin := 4, pwmChannel := 0, pwmFreq := 200, pwmResolution := 8,
       isActive := true, startTime := 0, duration := 1000, currentDuty := 250,
       targetDuty := 255, lastRampUpdate := 50 } : VibrationControl).rampStep 55 =
      ({ motorPin := 4, pwmChannel := 0, pwmFreq := 200, pwmResolution := 8,
         isActive := true, startTime := 0, duration := 1000, currentDuty := 19,
         targetDuty := 255, lastRampUpdate := 55 }, [LedcCall.write 0 19]) ∧
    min (250 + RAMP_STEP) 255 = 255 ∧
    (run (VibrationControl.ctor 4 0 200 8 0 0)
        (Call.start 0 1000 255 :: updatesEvery 5 0 10)).1 =
      { motorPin := 4, pwmChannel := 0, pwmFreq := 200, pwmResolution := 8,
        isActive := true, startTime := 0, duration := 1000, currentDuty := 250,
        targetDuty := 255, lastRampUpdate := 50 } := by
  decide

/-- Claim C6 (invariant): after construction, whatever value the constructor
leaves in `targetDuty` (and in `lastRampUpdate`), and after any sequence of
`start`, `stop` and `update` calls at any clock readings,
`currentDuty ≤ targetDuty`. -/
theorem currentDuty_le_targetDuty
    (pin channel freq res targetDuty0 lastRampUpdate0 : Nat) (calls : List Call) :
    (run (VibrationControl.ctor pin channel freq res targetDuty0 lastRampUpdate0)
        calls).1.currentDuty ≤
    (run (VibrationControl.ctor pin channel freq res targetDuty0 lastRampUpdate0)
        calls).1.targetDuty :=
  run_preserves (fun w => w.1.currentDuty ≤ w.1.targetDuty)
    (fun w c hw => call_currentDuty_le w.1 c hw) calls _ (Nat.zero_le _)

/-- Claim C7 (invariant): after construction and any sequence of `start`, `stop`
and `update` calls at any clock readings, if `isActive` is false then
`currentDuty` is 0. -/
theorem idle_implies_zero_duty
    (pin channel freq res targetDuty0 lastRampUpdate0 : Nat) (calls : List Call)
    (h : (run (VibrationControl.ctor pin channel freq res targetDuty0 lastRampUpdate0)
        calls).1.isActive = false) :
    (run (VibrationControl.ctor pin channel freq res targetDuty0 lastRampUpdate0)
        calls).1.currentDuty = 0 :=
  run_preserves (fun w => w.1.isActive = false → w.1.currentDuty = 0)
    (fun w c hw => call_idle_zero w.1 c hw) calls _ (fun _ => rfl) h

/-- Witness for C7: `start(12, 200)` at 0, `update()` at 5 and at 10 (duty 25,
then 50), `update()` at 12 (deadline), then an idle `update()` at 20. -/
theorem idle_implies_zero_duty_witness :
    (run (VibrationControl.ctor 4 0 200 8 9 9)
        [Call.start 0 12 200, Call.update 5, Call.update 10, Call.update 12,
         Call.update 20]).1.isActive = false ∧
    (run (VibrationControl.ctor 4 0 200 8 9 9)
        [Call.start 0 12 200, Call.update 5, Call.update 10, Call.update 12,
         Call.update 20]).1.currentDuty = 0 :=
  ⟨by decide,
   idle_implies_zero_duty 4 0 200 8 9 9
     [Call.start 0 12 200, Call.update 5, Call.update 10, Call.update 12, Call.update 20]
     (by decide)⟩

/-- Claim C8 as stated fails: after `start(100, 255)` at 0, `update()` at 5
(which writes 25) and a second `start(100, 255)` at 6, `currentDuty` is 0 while
the last duty written to the port is 25. -/
theorem currentDuty_mirror_fails_after_restart :
    (run (VibrationControl.ctor 4 0 200 8 0 0)
        [Call.start 0 100 255, Call.update 5, Call.start 6 100 255]).1.currentDuty = 0 ∧
    lastDuty (run (VibrationControl.ctor 4 0 200 8 0 0)
        [Call.start 0 100 255, Call.update 5, Call.start 6 100 255]).2 = some 25 ∧
    ¬ (lastDuty (run (VibrationControl.ctor 4 0 200 8 0 0)
        [Call.start 0 100 255, Call.update 5, Call.start 6 100 255]).2 =
      some (run (VibrationControl.ctor 4 0 200 8 0 0)
        [Call.start 0 100 255, Call.update 5, Call.start 6 100 255]).1.currentDuty) := by
  decide

/-- Claim C8, amended: after construction and any sequence of `start`, `stop`
and `update` calls, `currentDuty` equals the last duty value written to the PWM
port, or else the controller is active with `currentDuty = 0` (a `start` has
reset the field without writing and no write has followed yet). -/
theorem currentDuty_mirrors_port_or_fresh_start
    (pin channel freq res targetDuty0 lastRampUpdate0 : Nat) (calls : List Call) :
    lastDuty (run (VibrationControl.ctor pin channel freq res targetDuty0 lastRampUpdate0)
        calls).2 =
      some (run (VibrationControl.ctor pin channel freq res targetDuty0 lastRampUpdate0)
        calls).1.currentDuty ∨
    ((run (VibrationControl.ctor pin channel freq res targetDuty0 lastRampUpdate0)
        calls).1.isActive = true ∧
     (run (VibrationControl.ctor pin channel freq res targetDuty0 lastRampUpdate0)
        calls).1.currentDuty = 0) :=
  run_preserves
    (fun w => lastDuty w.2 = some w.1.currentDuty ∨
      (w.1.isActive = true ∧ w.1.currentDuty = 0))
    (fun w c hw => call_mirror w c hw) calls _ (Or.inl rfl)

/-- Claim C9 (no-op when idle): on a controller with `isActive = false`,
`update()` at any clock reading returns the same controller, equal in every
field, and issues no LEDC call. -/
theorem update_idle_noop (s : VibrationControl) (now : Nat) (h : s.isActive = false) :
    s.update now = (s, []) := by
  unfold VibrationControl.update
  rw [if_pos h]

/-- Witness for C9: the freshly constructed controller, `update()` at reading 1234. -/
theorem update_idle_noop_witness :
    (VibrationControl.ctor 4 0 200 8 77 99).1.isActive = false ∧
    (VibrationControl.ctor 4 0 200 8 77 99).1.update 1234 =
      ((VibrationControl.ctor 4 0 200 8 77 99).1, []) :=
  ⟨rfl, update_idle_noop (VibrationControl.ctor 4 0 200 8 77 99).1 1234 rfl⟩

/-- Claim C10 (stop is idempotent): for every state `s`, stopping the stopped
controller gives the stopped controller again, equal in every field, with
`isActive = false` and `currentDuty = 0`; and each of the two calls issues
exactly one LEDC call, the write of duty 0 to the controller's channel. -/
theorem stop_idempotent (s : VibrationControl) :
    (s.stop.1.stop).1 = s.stop.1 ∧
    s.stop.1.isActive = false ∧ s.stop.1.currentDuty = 0 ∧
    s.stop.2 = [LedcCall.write s.pwmChannel 0] ∧
    (s.stop.1.stop).2 = [LedcCall.write s.pwmChannel 0] ∧
    dutyWrites s.stop.2 = [0] ∧ dutyWrites (s.stop.1.stop).2 = [0] :=
  ⟨rfl, rfl, rfl, rfl, rfl, rfl, rfl⟩

/-! ## Further facts -/

theorem run_append (w : VibrationControl × List LedcCall) (a b : List Call) :
    run w (a ++ b) = run (run w a) b := by
  induction a generalizing w with
  | nil => rfl
  | cons c cs ih => exact ih _

theorem run_update_singleton (w : VibrationControl × List LedcCall) (t : Nat) :
    run w [Call.update t] = ((w.1.update t).1, w.2 ++ (w.1.update t).2) := rfl

theorem updatesAt_append (a b : List Nat) :
    updatesAt (a ++ b) = updatesAt a ++ updatesAt b := by
  simp [updatesAt]

/-- From a reading taken `e` milliseconds after `t0` on the 32-bit counter,
`ulongSub` recovers `e`, also across a wrap of the counter. -/
theorem ulongSub_add_mod (t0 e : Nat) (he : e < ULONG_MOD) :
    ulongSub ((t0 + e) % ULONG_MOD) t0 = e := by
  unfold ulongSub ULONG_MOD at *
  omega

/-- The value of `ulongSub` is the integer difference modulo `2^32`. -/
theorem ulongSub_eq_emod (a b : Nat) :
    ((ulongSub a b : Nat) : Int) = ((a : Int) - (b : Int)) % 4294967296 := by
  unfold ulongSub ULONG_MOD at *
  omega

/-- An active controller is idle after `update()` exactly when the deadline
test succeeds. -/
theorem update_isActive_false_iff (s : VibrationControl) (now : Nat)
    (ha : s.isActive = true) :
    (s.update now).1.isActive = false ↔ s.duration ≤ ulongSub now s.startTime := by
  by_cases hd : s.duration ≤ ulongSub now s.startTime
  · rw [update_of_deadline s now ha hd]
    exact ⟨fun _ => hd, fun _ => rfl⟩
  · rw [update_of_before_deadline s now ha (by omega), rampStep_isActive, ha]
    exact ⟨fun h => absurd h (by simp), fun h => absurd h hd⟩

/-- After `start` at `t0`, an `update()` earlier than both the ramp interval and
the deadline changes nothing. -/
theorem update_of_early (s : VibrationControl) (t : Nat)
    (ha : s.isActive = true) (hl : s.lastRampUpdate = s.startTime)
    (hr : ulongSub t s.startTime < RAMP_INTERVAL) (hd : ulongSub t s.startTime < s.duration) :
    s.update t = (s, []) := by
  rw [update_of_before_deadline s t ha hd]
  apply rampStep_of_not_gate
  rw [hl]
  omega

/-- Updates that are all earlier than the ramp interval and the deadline of a
fresh episode leave the controller and the log as they are. -/
theorem run_updates_early (s : VibrationControl) (log : List LedcCall) (ts : List Nat)
    (ha : s.isActive = true) (hl : s.lastRampUpdate = s.startTime)
    (h : ∀ t ∈ ts, ulongSub t s.startTime < RAMP_INTERVAL ∧ ulongSub t s.startTime < s.duration) :
    run (s, log) (updatesAt ts) = (s, log) := by
  induction ts with
  | nil => rfl
  | cons t rest ih =>
    have ht := h t (List.mem_cons_self _ _)
    have hu := update_of_early s t ha hl ht.1 ht.2
    show run (((s.update t).1), log ++ (s.update t).2) (updatesAt rest) = (s, log)
    rw [hu]
    simp only [List.append_nil]
    exact ih (fun x hx => h x (List.mem_cons_of_mem _ hx))

/-- Updates that are all earlier than the ramp interval of a fresh episode
leave `currentDuty` at 0, whatever the duration; the controller is still active
after them exactly when it was active and none of them reached the deadline. -/
theorem run_updates_within_interval (ts : List Nat) :
    ∀ (st : VibrationControl) (log : List LedcCall),
      st.currentDuty = 0 → (st.isActive = true → st.lastRampUpdate = st.startTime) →
      (∀ t ∈ ts, ulongSub t st.startTime < RAMP_INTERVAL) →
      (run (st, log) (updatesAt ts)).1.currentDuty = 0 ∧
      ((run (st, log) (updatesAt ts)).1.isActive = true ↔
        (st.isActive = true ∧ ∀ t ∈ ts, ulongSub t st.startTime < st.duration)) := by
  induction ts with
  | nil =>
    intro st log hc _ _
    exact ⟨hc, fun hx => ⟨hx, fun t ht => absurd ht (List.not_mem_nil t)⟩, fun hx => hx.1⟩
  | cons t rest ih =>
    intro st log hc hl h
    have ht := h t (List.mem_cons_self _ _)
    have hrest : ∀ x ∈ rest, ulongSub x st.startTime < RAMP_INTERVAL :=
      fun x hx => h x (List.mem_cons_of_mem _ hx)
    show (run ((st.update t).1, log ++ (st.update t).2) (updatesAt rest)).1.currentDuty = 0 ∧
      ((run ((st.update t).1, log ++ (st.update t).2) (updatesAt rest)).1.isActive = true ↔
        (st.isActive = true ∧ ∀ x ∈ t :: rest, ulongSub x st.startTime < st.duration))
    cases ha : st.isActive with
    | false =>
      have hu : st.update t = (st, []) := by
        unfold VibrationControl.update; rw [if_pos ha]
      rw [hu]
      have := ih st (log ++ []) hc hl hrest
      refine ⟨this.1, ?_⟩
      rw [this.2, ha]
      simp
    | true =>
      have hng : ¬ (st.currentDuty < st.targetDuty ∧
          RAMP_INTERVAL ≤ ulongSub t st.lastRampUpdate) := by
        rw [hl ha]; omega
      by_cases hd : st.duration ≤ ulongSub t st.startTime
      · rw [update_of_deadline st t ha hd, rampStep_of_not_gate st t hng]
        have := ih (st.stop).1 (log ++ ([] ++ [LedcCall.write st.pwmChannel 0])) rfl
          (fun hx => absurd hx (by simp [VibrationControl.stop])) hrest
        refine ⟨this.1, ?_⟩
        rw [this.2]
        constructor
        · intro hx
          exact absurd hx.1 (by simp [VibrationControl.stop])
        · intro hx
          have := hx.2 t (List.mem_cons_self _ _)
          omega
      · rw [update_of_early st t ha (hl ha) ht (by omega)]
        have := ih st (log ++ []) hc hl hrest
        refine ⟨this.1, ?_⟩
        rw [this.2, ha]
        constructor
        · intro hx
          refine ⟨rfl, fun x hx2 => ?_⟩
          rcases List.mem_cons.mp hx2 with rfl | hx3
          · omega
          · exact hx.2 x hx3
        · intro hx
          exact ⟨rfl, fun x hx2 => hx.2 x (List.mem_cons_of_mem _ hx2)⟩

/-! ## Claims, continued -/

/-- Claim C11 as stated fails: `start(3, 100)` at reading 0 has `durationMs > 0`,
and the single `update()` at reading 3 is less than one ramp interval after the
start, yet it reaches the deadline and `isRunning()` is false afterwards. -/
theorem initial_hold_fails_short_duration :
    0 < 3 ∧ (∀ t ∈ [3], ulongSub t 0 < RAMP_INTERVAL) ∧
    (run ((VibrationControl.ctor 4 0 200 8 0 0).1.start 0 3 100)
      (updatesAt [3])).1.isRunning = false := by
  decide

/-- Claim C11, amended: for all `maxDuty` and all `durationMs`, after
`start(durationMs, maxDuty)` at reading `t0` and any sequence of `update()` calls
at readings less than one ramp interval after `t0`, `currentDuty` is 0; and
`isRunning()` is true exactly when the elapsed time of every one of those updates
is also less than `durationMs`. -/
theorem initial_hold (s : VibrationControl) (t0 durationMs maxDuty : Nat) (ts : List Nat)
    (h : ∀ t ∈ ts, ulongSub t t0 < RAMP_INTERVAL) :
    (run (s.start t0 durationMs maxDuty) (updatesAt ts)).1.currentDuty = 0 ∧
    ((run (s.start t0 durationMs maxDuty) (updatesAt ts)).1.isRunning = true ↔
      ∀ t ∈ ts, ulongSub t t0 < durationMs) := by
  have hr := run_updates_within_interval ts (s.start t0 durationMs maxDuty).1 [] rfl
    (fun _ => rfl) h
  have hs : s.start t0 durationMs maxDuty = ((s.start t0 durationMs maxDuty).1, []) := rfl
  rw [← hs] at hr
  refine ⟨hr.1, ?_⟩
  show (run (s.start t0 durationMs maxDuty) (updatesAt ts)).1.isActive = true ↔ _
  rw [hr.2]
  exact ⟨fun hx => hx.2, fun hx => ⟨rfl, hx⟩⟩

/-- Witness for C11 amended: `start(100, 255)` at reading 1000, updates at 1000,
1002 and 1004 (the controller stays running at duty 0); and `start(3, 100)` at
reading 0, updates at 2, 3 and 4 (the controller stops at 3, the duty is 0
throughout). -/
theorem initial_hold_witness :
    ((∀ t ∈ [1000, 1002, 1004], ulongSub t 1000 < RAMP_INTERVAL) ∧
      (∀ t ∈ [1000, 1002, 1004], ulongSub t 1000 < 100) ∧
      (∀ t ∈ [2, 3, 4], ulongSub t 0 < RAMP_INTERVAL)) ∧
    (run ((VibrationControl.ctor 4 0 200 8 0 0).1.start 1000 100 255)
      (updatesAt [1000, 1002, 1004])).1.currentDuty = 0 ∧
    (run ((VibrationControl.ctor 4 0 200 8 0 0).1.start 1000 100 255)
      (updatesAt [1000, 1002, 1004])).1.isRunning = true ∧
    (run ((VibrationControl.ctor 4 0 200 8 0 0).1.start 0 3 100)
      (updatesAt [2, 3, 4])).1.currentDuty = 0 :=
  ⟨by decide,
   (initial_hold (VibrationControl.ctor 4 0 200 8 0 0).1 1000 100 255 [1000, 1002, 1004]
     (by decide)).1,
   (initial_hold (VibrationControl.ctor 4 0 200 8 0 0).1 1000 100 255 [1000, 1002, 1004]
     (by decide)).2.mpr (by decide),
   (initial_hold (VibrationControl.ctor 4 0 200 8 0 0).1 0 3 100 [2, 3, 4] (by decide)).1⟩

/-- Claim C12 (wraparound-safe elapsed time): on the 32-bit counter, for an
active controller whose episode started at reading `startTime` and an `update()`
at reading `t1 = (startTime + e) mod 2^32` with `e < 2^32`, the update stops the
controller if and only if `e ≥ duration` (so it stays active when `e < duration`,
also when `t1` is numerically below `startTime`), and the ramp block writes if and
only if `currentDuty < targetDuty` and `(t1 - lastRampUpdate) mod 2^32 ≥ 5`. -/
theorem wraparound_safe_elapsed (s : VibrationControl) (e : Nat)
    (ha : s.isActive = true) (he : e < ULONG_MOD) :
    ((s.update ((s.startTime + e) % ULONG_MOD)).1.isActive = false ↔ s.duration ≤ e) ∧
    ((s.update ((s.startTime + e) % ULONG_MOD)).1.isActive = true ↔ e < s.duration) ∧
    ((s.rampStep ((s.startTime + e) % ULONG_MOD)).2 ≠ [] ↔
      (s.currentDuty < s.targetDuty ∧
        (5 : Int) ≤ ((((s.startTime + e) % ULONG_MOD : Nat) : Int) - (s.lastRampUpdate : Int))
          % 4294967296)) := by
  have h1 := update_isActive_false_iff s ((s.startTime + e) % ULONG_MOD) ha
  rw [ulongSub_add_mod s.startTime e he] at h1
  refine ⟨h1, ?_, ?_⟩
  · constructor
    · intro ht
      by_contra hn
      have := h1.mpr (by omega)
      rw [ht] at this
      exact absurd this (by simp)
    · intro hlt
      cases hx : (s.update ((s.startTime + e) % ULONG_MOD)).1.isActive with
      | true => rfl
      | false => have := h1.mp hx; omega
  · rw [← ulongSub_eq_emod]
    unfold VibrationControl.rampStep RAMP_INTERVAL
    split
    · rename_i hg
      simp only [ne_eq, List.cons_ne_nil, not_false_eq_true, true_iff]
      exact ⟨hg.1, by exact_mod_cast hg.2⟩
    · rename_i hg
      simp only [ne_eq, not_true_eq_false, false_iff]
      intro hc
      exact hg ⟨hc.1, by exact_mod_cast hc.2⟩

/-- Witness for C12: `start(100, 255)` at reading `2^32 - 6`, `update()` 50 ms
later at reading 44, after the counter has wrapped. -/
theorem wraparound_safe_elapsed_witness :
    (44 < 4294967290 ∧ (4294967290 + 50) % ULONG_MOD = 44) ∧
    ((((VibrationControl.ctor 4 0 200 8 0 0).1.start 4294967290 100 255).1.update
        ((4294967290 + 50) % ULONG_MOD)).1.isActive = false ↔ 100 ≤ 50) ∧
    ((((VibrationControl.ctor 4 0 200 8 0 0).1.start 4294967290 100 255).1.update
        ((4294967290 + 50) % ULONG_MOD)).1.isActive = true ↔ 50 < 100) ∧
    ((((VibrationControl.ctor 4 0 200 8 0 0).1.start 4294967290 100 255).1.rampStep
        ((4294967290 + 50) % ULONG_MOD)).2 ≠ [] ↔
      ((0 : Nat) < 255 ∧
        (5 : Int) ≤ ((((4294967290 + 50) % ULONG_MOD : Nat) : Int) - ((4294967290 : Nat) : Int))
          % 4294967296)) :=
  ⟨by decide,
   wraparound_safe_elapsed ((VibrationControl.ctor 4 0 200 8 0 0).1.start 4294967290 100 255).1
     50 rfl (by decide)⟩

/-- Claim C13 (late single update): after `start(d, m)` with `m > 0` at reading
`t0`, one `update()` at a reading whose elapsed time is at least the ramp interval
and at least `d` issues exactly two LEDC writes, first `min 25 m` and then 0, and
leaves the controller inactive with `currentDuty = 0`. -/
theorem late_single_update (s : VibrationControl) (t0 t1 d m : Nat) (hm : 0 < m)
    (h5 : RAMP_INTERVAL ≤ ulongSub t1 t0) (hd : d ≤ ulongSub t1 t0) :
    ((s.start t0 d m).1.update t1).2 =
      [LedcCall.write s.pwmChannel (min 25 m), LedcCall.write s.pwmChannel 0] ∧
    dutyWrites ((s.start t0 d m).1.update t1).2 = [min 25 m, 0] ∧
    ((s.start t0 d m).1.update t1).1.isRunning = false ∧
    ((s.start t0 d m).1.update t1).1.currentDuty = 0 := by
  have hu := update_of_deadline (s.start t0 d m).1 t1 rfl hd
  have hg := rampStep_of_gate (s.start t0 d m).1 t1 ⟨hm, h5⟩
  rw [hu, hg]
  exact ⟨rfl, rfl, rfl, rfl⟩

/-- Witness for C13: `start(3, 100)` at reading 0, one `update()` at reading 10
writes 25 and then 0. -/
theorem late_single_update_witness :
    (0 < 100 ∧ RAMP_INTERVAL ≤ ulongSub 10 0 ∧ 3 ≤ ulongSub 10 0) ∧
    dutyWrites (((VibrationControl.ctor 4 0 200 8 0 0).1.start 0 3 100).1.update 10).2 = [25, 0] ∧
    (((VibrationControl.ctor 4 0 200 8 0 0).1.start 0 3 100).1.update 10).1.isRunning = false ∧
    (((VibrationControl.ctor 4 0 200 8 0 0).1.start 0 3 100).1.update 10).1.currentDuty = 0 :=
  ⟨by decide,
   (late_single_update (VibrationControl.ctor 4 0 200 8 0 0).1 0 10 3 100
     (by decide) (by decide) (by decide)).2⟩

/-- Claim C14 (running at target holds until the deadline): for an active
controller, an `update()` at a reading `now` whose elapsed time since `startTime`
is below `duration`, taken while `currentDuty = targetDuty`, returns the same
controller, equal in every field, and issues no LEDC call; and, whatever the
ramp progress, `update()` at any reading `t` makes `isActive` false if and only
if the elapsed time at `t` is at least `duration`. -/
theorem hold_at_target (s : VibrationControl) (ha : s.isActive = true) :
    (∀ now : Nat, s.currentDuty = s.targetDuty → ulongSub now s.startTime < s.duration →
      s.update now = (s, [])) ∧
    (∀ t : Nat, (s.update t).1.isActive = false ↔ s.duration ≤ ulongSub t s.startTime) := by
  refine ⟨fun now hc hd => ?_, fun t => update_isActive_false_iff s t ha⟩
  rw [update_of_before_deadline s now ha hd]
  exact rampStep_of_not_gate s now (fun hg => by omega)

/-- Witness for C14: the active controller at `currentDuty = targetDuty = 100`
of an episode started at 0 for 1000 ms is unchanged by `update()` at reading 500;
and the active controller at duty 75 of 100, 20 ms into the same episode, stays
active at the update at 20 that brings it to the target and is stopped only by
the update at 1000. -/
theorem hold_at_target_witness :
    (100 = 100 ∧ ulongSub 500 0 < 1000 ∧ ¬ (1000 ≤ ulongSub 20 0) ∧ 1000 ≤ ulongSub 1000 0) ∧
    ({ motorPin := 4, pwmChannel := 0, pwmFreq := 200, pwmResolution := 8,
       isActive := true, startTime := 0, duration := 1000, currentDuty := 100,
       targetDuty := 100, lastRampUpdate := 20 } : VibrationControl).update 500 =
      ({ motorPin := 4, pwmChannel := 0, pwmFreq := 200, pwmResolution := 8,
         isActive := true, startTime := 0, duration := 1000, currentDuty := 100,
         targetDuty := 100, lastRampUpdate := 20 }, []) ∧
    ¬ ((({ motorPin := 4, pwmChannel := 0, pwmFreq := 200, pwmResolution := 8,
           isActive := true, startTime := 0, duration := 1000, currentDuty := 75,
           targetDuty := 100, lastRampUpdate := 15 } : VibrationControl).update 20).1.isActive
      = false) ∧
    (({ motorPin := 4, pwmChannel := 0, pwmFreq := 200, pwmResolution := 8,
        isActive := true, startTime := 0, duration := 1000, currentDuty := 75,
        targetDuty := 100, lastRampUpdate := 15 } : VibrationControl).update 1000).1.isActive
      = false :=
  ⟨by decide,
   (hold_at_target
     { motorPin := 4, pwmChannel := 0, pwmFreq := 200, pwmResolution := 8,
       isActive := true, startTime := 0, duration := 1000, currentDuty := 100,
       targetDuty := 100, lastRampUpdate := 20 } rfl).1 500 rfl (by decide),
   fun hx => absurd (((hold_at_target
     { motorPin := 4, pwmChannel := 0, pwmFreq := 200, pwmResolution := 8,
       isActive := true, startTime := 0, duration := 1000, currentDuty := 75,
       targetDuty := 100, lastRampUpdate := 15 } rfl).2 20).mp hx) (by decide),
   ((hold_at_target
     { motorPin := 4, pwmChannel := 0, pwmFreq := 200, pwmResolution := 8,
       isActive := true, startTime := 0, duration := 1000, currentDuty := 75,
       targetDuty := 100, lastRampUpdate := 15 } rfl).2 1000).mpr (by decide)⟩

/-- Every well-typed call keeps: an active controller has an 8-bit target, and
while `currentDuty` is below the target it is `25 * k mod 256` for some step
count `k < 215`. -/
theorem call_ramp_phase (s : VibrationControl) (c : Call) (hc : c.wellTyped = true)
    (h : (s.isActive = true → s.targetDuty < UINT8_MOD) ∧
      (s.currentDuty < s.targetDuty → ∃ k, k < 215 ∧ s.currentDuty = 25 * k % 256)) :
    ((s.call c).1.isActive = true → (s.call c).1.targetDuty < UINT8_MOD) ∧
    ((s.call c).1.currentDuty < (s.call c).1.targetDuty →
      ∃ k, k < 215 ∧ (s.call c).1.currentDuty = 25 * k % 256) := by
  cases c with
  | start now durationMs maxDuty =>
    simp only [Call.wellTyped, Bool.and_eq_true, decide_eq_true_eq] at hc
    exact ⟨fun _ => hc.2, fun _ => ⟨0, by omega, rfl⟩⟩
  | stop => exact ⟨fun hf => absurd hf (by simp [VibrationControl.call, VibrationControl.stop]),
      fun _ => ⟨0, by omega, rfl⟩⟩
  | update now =>
    show ((s.update now).1.isActive = true → (s.update now).1.targetDuty < UINT8_MOD) ∧
      ((s.update now).1.currentDuty < (s.update now).1.targetDuty →
        ∃ k, k < 215 ∧ (s.update now).1.currentDuty = 25 * k % 256)
    cases ha : s.isActive with
    | false =>
      have hu : s.update now = (s, []) := by
        unfold VibrationControl.update; rw [if_pos ha]
      rw [hu]
      exact ⟨fun hf => absurd (ha ▸ hf) (by simp), h.2⟩
    | true =>
      by_cases hd : s.duration ≤ ulongSub now s.startTime
      · rw [update_of_deadline s now ha hd]
        exact ⟨fun hf => absurd hf (by simp [VibrationControl.stop]),
          fun _ => ⟨0, by omega, rfl⟩⟩
      · rw [update_of_before_deadline s now ha (by omega)]
        have ht := h.1 ha
        by_cases hg : s.currentDuty < s.targetDuty ∧
            RAMP_INTERVAL ≤ ulongSub now s.lastRampUpdate
        · rw [rampStep_of_gate s now hg]
          refine ⟨fun _ => ht, ?_⟩
          obtain ⟨k, hk, hk2⟩ := h.2 hg.1
          intro hlt
          simp only [castUInt8, RAMP_STEP, UINT8_MOD] at hlt ht ⊢
          refine ⟨k + 1, ?_, ?_⟩ <;> omega
        · rw [rampStep_of_not_gate s now hg]
          exact ⟨fun _ => ht, h.2⟩

/-- Under the ramp-phase invariant every duty written by the ramp block is
positive. -/
theorem rampStep_write_pos (s : VibrationControl) (now : Nat)
    (h : s.currentDuty < s.targetDuty → ∃ k, k < 215 ∧ s.currentDuty = 25 * k % 256) :
    ∀ v ∈ dutyWrites (s.rampStep now).2, 0 < v := by
  by_cases hg : s.currentDuty < s.targetDuty ∧ RAMP_INTERVAL ≤ ulongSub now s.lastRampUpdate
  · rw [rampStep_of_gate s now hg]
    obtain ⟨k, hk, hk2⟩ := h hg.1
    intro v hv
    simp only [dutyWrites, List.mem_singleton] at hv
    simp only [castUInt8, RAMP_STEP, UINT8_MOD] at hv
    omega
  · rw [rampStep_of_not_gate s now hg]
    intro v hv
    simp [dutyWrites] at hv

/-- Claim C15 (stop is the only source of a zero duty): after construction and
any sequence of `start`, `stop` and `update` calls whose arguments fit their C++
types, at any clock readings, the ramp block of a further `update()` writes only
values strictly greater than 0; so either that `update()` writes no zero at all,
or it has called `stop()` and the controller is inactive after it. -/
theorem zero_write_only_from_stop
    (pin channel freq res targetDuty0 lastRampUpdate0 : Nat) (calls : List Call) (now : Nat)
    (hw : ∀ c ∈ calls, c.wellTyped = true) :
    (∀ v ∈ dutyWrites ((run (VibrationControl.ctor pin channel freq res targetDuty0
        lastRampUpdate0) calls).1.rampStep now).2, 0 < v) ∧
    ((∀ v ∈ dutyWrites ((run (VibrationControl.ctor pin channel freq res targetDuty0
        lastRampUpdate0) calls).1.update now).2, 0 < v) ∨
      ((run (VibrationControl.ctor pin channel freq res targetDuty0
        lastRampUpdate0) calls).1.update now).1.isActive = false) := by
  have hinv : ∀ (cs : List Call) (w : VibrationControl × List LedcCall),
      (∀ c ∈ cs, c.wellTyped = true) →
      ((w.1.isActive = true → w.1.targetDuty < UINT8_MOD) ∧
        (w.1.currentDuty < w.1.targetDuty → ∃ k, k < 215 ∧ w.1.currentDuty = 25 * k % 256)) →
      (((run w cs).1.isActive = true → (run w cs).1.targetDuty < UINT8_MOD) ∧
        ((run w cs).1.currentDuty < (run w cs).1.targetDuty →
          ∃ k, k < 215 ∧ (run w cs).1.currentDuty = 25 * k % 256)) := by
    intro cs
    induction cs with
    | nil => intro w _ h; exact h
    | cons c rest ih =>
      intro w hcs h
      exact ih _ (fun x hx => hcs x (List.mem_cons_of_mem _ hx))
        (call_ramp_phase w.1 c (hcs c (List.mem_cons_self _ _)) h)
  have h := hinv calls (VibrationControl.ctor pin channel freq res targetDuty0 lastRampUpdate0)
    hw ⟨fun hf => absurd hf (by simp [VibrationControl.ctor]), fun _ => ⟨0, by omega, rfl⟩⟩
  have hpos := rampStep_write_pos
    (run (VibrationControl.ctor pin channel freq res targetDuty0 lastRampUpdate0) calls).1 now h.2
  refine ⟨hpos, ?_⟩
  generalize (run (VibrationControl.ctor pin channel freq res targetDuty0
    lastRampUpdate0) calls).1 = s at hpos ⊢
  cases ha : s.isActive with
  | false =>
    have hu : s.update now = (s, []) := by
      unfold VibrationControl.update; rw [if_pos ha]
    rw [hu]
    exact Or.inr ha
  | true =>
    by_cases hd : s.duration ≤ ulongSub now s.startTime
    · rw [update_of_deadline s now ha hd]
      exact Or.inr rfl
    · rw [update_of_before_deadline s now ha (by omega)]
      exact Or.inl hpos

/-- Witness for C15: after `start(1000, 255)` at 0 and eleven updates 5 ms apart
(duty 19 after the wrap), a further `update()` at reading 60. -/
theorem zero_write_only_from_stop_witness :
    (∀ c ∈ Call.start 0 1000 255 :: updatesEvery 5 0 11, c.wellTyped = true) ∧
    (∀ v ∈ dutyWrites ((run (VibrationControl.ctor 4 0 200 8 0 0)
        (Call.start 0 1000 255 :: updatesEvery 5 0 11)).1.rampStep 60).2, 0 < v) :=
  ⟨by decide,
   (zero_write_only_from_stop 4 0 200 8 0 0 (Call.start 0 1000 255 :: updatesEvery 5 0 11) 60
     (by decide)).1⟩

/-! ## The ramp over spaced updates -/

theorem belowTarget_succ (m k : Nat) :
    belowTarget m (k + 1) ↔ belowTarget m k ∧ 25 * (k + 1) % 256 < m := by
  constructor
  · intro h
    exact ⟨fun j hj => h j (by omega), h (k + 1) (Nat.le_refl _)⟩
  · intro h j hj
    by_cases hjk : j ≤ k
    · exact h.1 j hjk
    · have : j = k + 1 := by omega
      rw [this]; exact h.2

theorem belowTarget_self (m k : Nat) (h : belowTarget m k) : 25 * k % 256 < m :=
  h k (Nat.le_refl _)

/-- For targets up to 250 the wrapped sums below the target are the plain
multiples of 25 below it. -/
theorem belowTarget_iff_of_le_250 (m k : Nat) (hm : m ≤ 250) :
    belowTarget m k ↔ 25 * k < m := by
  constructor
  · intro h
    have h10 : k < 10 := by
      by_contra hk
      have := h 10 (by omega)
      omega
    have := h k (Nat.le_refl _)
    omega
  · intro h j hj
    omega

/-- An 8-bit target is reached by the wrapped sums at the latest at `j = 215`,
where `25 * 215 mod 256 = 255`. -/
theorem not_belowTarget_of_215_le (m k : Nat) (hm : m < UINT8_MOD) (hk : 215 ≤ k) :
    ¬ belowTarget m k := by
  intro h
  have := h 215 hk
  unfold UINT8_MOD at hm
  omega

/-- The wrapped sums stay below 255 for fewer than 215 steps. -/
theorem belowTarget_255_of_lt_215 (k : Nat) (hk : k < 215) : belowTarget 255 k := by
  intro j hj
  omega

/-- The state right after `start` is the ramp state at step 0. -/
theorem rampAfter_start (s : VibrationControl) (t0 d m : Nat) :
    RampAfter t0 d m 0 t0 (s.start t0 d m).1 := by
  refine ⟨rfl, rfl, rfl, rfl, fun _ => ⟨rfl, rfl⟩, ?_⟩
  intro h
  show 0 = m
  by_contra hne
  exact h (fun j hj => by have : j = 0 := by omega
                          subst this; omega)

/-- One update, at least the ramp interval after the previous one and before
the deadline, takes the ramp state at step `k` to the ramp state at step `k + 1`,
and writes the new duty exactly when the duty was still below the target. -/
theorem rampAfter_update (t0 d m k prev t : Nat) (st : VibrationControl)
    (h : RampAfter t0 d m k prev st)
    (hg : RAMP_INTERVAL ≤ ulongSub t prev) (hd : ulongSub t t0 < d) :
    RampAfter t0 d m (k + 1) t (st.update t).1 ∧
    dutyWrites (st.update t).2 =
      (if st.currentDuty < m then [(st.update t).1.currentDuty] else []) := by
  obtain ⟨ha, hst, hdu, htd, hb, hnb⟩ := h
  rw [update_of_before_deadline st t ha (by rw [hst, hdu]; exact hd)]
  by_cases hbt : belowTarget m k
  · obtain ⟨hc, hl⟩ := hb hbt
    have hlt : st.currentDuty < m := by rw [hc]; exact belowTarget_self m k hbt
    rw [rampStep_of_gate st t ⟨by rw [htd]; exact hlt, by rw [hl]; exact hg⟩, if_pos hlt]
    refine ⟨⟨ha, hst, hdu, htd, ?_, ?_⟩, rfl⟩
    · intro hb1
      have h2 := ((belowTarget_succ m k).mp hb1).2
      refine ⟨?_, rfl⟩
      show min (castUInt8 (st.currentDuty + RAMP_STEP)) st.targetDuty = 25 * (k + 1) % 256
      simp only [castUInt8, RAMP_STEP, UINT8_MOD]
      omega
    · intro hb1
      have h2 : ¬ 25 * (k + 1) % 256 < m := fun hx => hb1 ((belowTarget_succ m k).mpr ⟨hbt, hx⟩)
      show min (castUInt8 (st.currentDuty + RAMP_STEP)) st.targetDuty = m
      simp only [castUInt8, RAMP_STEP, UINT8_MOD]
      omega
  · have hc := hnb hbt
    have hnl : ¬ st.currentDuty < m := by omega
    rw [rampStep_of_not_gate st t (fun hx => by omega), if_neg hnl]
    refine ⟨⟨ha, hst, hdu, htd, ?_, fun _ => hc⟩, rfl⟩
    intro hb1
    exact absurd ((belowTarget_succ m k).mp hb1).1 hbt

/-- Spaced updates before the deadline take the ramp state at step `k` to the
ramp state at step `k + ts.length`; the readings that follow stay spaced from
the last one. -/
theorem rampAfter_run (t0 d m : Nat) (ts rest : List Nat) :
    ∀ (k prev : Nat) (st : VibrationControl) (log : List LedcCall),
      RampAfter t0 d m k prev st → Spaced prev (ts ++ rest) →
      (∀ t ∈ ts, ulongSub t t0 < d) →
      ∃ prev1, RampAfter t0 d m (k + ts.length) prev1 (run (st, log) (updatesAt ts)).1 ∧
        Spaced prev1 rest := by
  induction ts with
  | nil => intro k prev st log h hs _; exact ⟨prev, h, hs⟩
  | cons t ts ih =>
    intro k prev st log h hs hd
    have hstep := (rampAfter_update t0 d m k prev t st h hs.1
      (hd t (List.mem_cons_self _ _))).1
    have := ih (k + 1) t (st.update t).1 (log ++ (st.update t).2) hstep hs.2
      (fun x hx => hd x (List.mem_cons_of_mem _ hx))
    rw [List.length_cons, show k + (ts.length + 1) = k + 1 + ts.length by omega]
    exact this

/-- For targets up to 250 the ramp state at step `k` has duty `min (25 * k) m`,
and while below the target the sum `currentDuty + RAMP_STEP` fits in 8 bits. -/
theorem rampAfter_currentDuty_of_le_250 (t0 d m k prev : Nat) (st : VibrationControl)
    (hm : m ≤ 250) (h : RampAfter t0 d m k prev st) :
    st.currentDuty = min (25 * k) m ∧
    (st.currentDuty = st.targetDuty ∨ st.currentDuty + RAMP_STEP < UINT8_MOD) := by
  obtain ⟨_, _, _, htd, hb, hnb⟩ := h
  by_cases hbt : belowTarget m k
  · have hk := (belowTarget_iff_of_le_250 m k hm).mp hbt
    have hc := (hb hbt).1
    have hmod : 25 * k % 256 = 25 * k := Nat.mod_eq_of_lt (by omega)
    rw [hmod] at hc
    unfold RAMP_STEP UINT8_MOD
    refine ⟨by omega, Or.inr (by omega)⟩
  · have hk : ¬ 25 * k < m := fun hx => hbt ((belowTarget_iff_of_le_250 m k hm).mpr hx)
    have hc := hnb hbt
    exact ⟨by omega, Or.inl (by omega)⟩

/-- Claim C18 (exact ramp for targets up to 250): for every `maxDuty ≤ 250`, after
`start(d, maxDuty)` at reading `t0` and updates at the readings `ts` followed by
`t`, each at least 5 ms after the one before and all before the deadline:
`currentDuty` after the `k = ts.length` updates is `min (25 * k) maxDuty`, after
the next one it is `min (25 * (k + 1)) maxDuty`, that next update wrote exactly
this value if it differs from the duty before and nothing otherwise, and whenever
the ramp block evaluates `currentDuty + RAMP_STEP` (the duty is below the target)
the sum fits in 8 bits. -/
theorem exact_ramp_le_250 (s : VibrationControl) (t0 d maxDuty : Nat) (ts : List Nat) (t : Nat)
    (hm : maxDuty ≤ 250) (hs : Spaced t0 (ts ++ [t]))
    (hd : ∀ x ∈ ts ++ [t], ulongSub x t0 < d) :
    (run (s.start t0 d maxDuty) (updatesAt ts)).1.currentDuty = min (25 * ts.length) maxDuty ∧
    (run (s.start t0 d maxDuty) (updatesAt (ts ++ [t]))).1.currentDuty =
      min (25 * (ts.length + 1)) maxDuty ∧
    dutyWrites ((run (s.start t0 d maxDuty) (updatesAt ts)).1.update t).2 =
      (if min (25 * (ts.length + 1)) maxDuty = min (25 * ts.length) maxDuty then []
       else [min (25 * (ts.length + 1)) maxDuty]) ∧
    ((run (s.start t0 d maxDuty) (updatesAt ts)).1.currentDuty =
        (run (s.start t0 d maxDuty) (updatesAt ts)).1.targetDuty ∨
      (run (s.start t0 d maxDuty) (updatesAt ts)).1.currentDuty + RAMP_STEP < UINT8_MOD) := by
  have hrun := rampAfter_run t0 d maxDuty ts [t] 0 t0 (s.start t0 d maxDuty).1 []
    (rampAfter_start s t0 d maxDuty) hs
    (fun x hx => hd x (List.mem_append_left _ hx))
  obtain ⟨prev1, hR, hsp⟩ := hrun
  rw [Nat.zero_add] at hR
  have hs0 : s.start t0 d maxDuty = ((s.start t0 d maxDuty).1, []) := rfl
  rw [← hs0] at hR
  have hstep := rampAfter_update t0 d maxDuty ts.length prev1 t _ hR hsp.1
    (hd t (List.mem_append_right _ (List.mem_singleton_self t)))
  have hk := rampAfter_currentDuty_of_le_250 t0 d maxDuty _ _ _ hm hR
  have hk1 := rampAfter_currentDuty_of_le_250 t0 d maxDuty _ _ _ hm hstep.1
  have hlast : (run (s.start t0 d maxDuty) (updatesAt (ts ++ [t]))).1 =
      ((run (s.start t0 d maxDuty) (updatesAt ts)).1.update t).1 := by
    rw [updatesAt_append, run_append]
    rfl
  refine ⟨hk.1, by rw [hlast]; exact hk1.1, ?_, hk.2⟩
  rw [hstep.2, hk.1, hk1.1]
  by_cases hlt : 25 * ts.length < maxDuty
  · rw [if_pos (by omega), if_neg (by omega)]
  · rw [if_neg (by omega), if_pos (by omega)]

/-- Witness for C18: `start(1000, 60)` at reading 0, updates at 5 and 10, then
at 15: the duty goes 25, 50, 60. -/
theorem exact_ramp_le_250_witness :
    (60 ≤ 250 ∧ Spaced 0 ([5, 10] ++ [15]) ∧ ∀ x ∈ [5, 10] ++ [15], ulongSub x 0 < 1000) ∧
    (run ((VibrationControl.ctor 4 0 200 8 0 0).1.start 0 1000 60)
      (updatesAt [5, 10])).1.currentDuty = min (25 * 2) 60 ∧
    (run ((VibrationControl.ctor 4 0 200 8 0 0).1.start 0 1000 60)
      (updatesAt ([5, 10] ++ [15]))).1.currentDuty = min (25 * (2 + 1)) 60 :=
  ⟨by decide,
   (exact_ramp_le_250 (VibrationControl.ctor 4 0 200 8 0 0).1 0 1000 60 [5, 10] 15
     (by decide) (by decide) (by decide)).1,
   (exact_ramp_le_250 (VibrationControl.ctor 4 0 200 8 0 0).1 0 1000 60 [5, 10] 15
     (by decide) (by decide) (by decide)).2.1⟩

/-- Claim C19 (ramp convergence bound): for every `maxDuty` in 0..255, after
`start(d, maxDuty)` at reading `t0` and updates at the readings `ts`, each at
least 5 ms after the one before and all before the deadline, `currentDuty` equals
`maxDuty` as soon as there are at least 215 updates (and so for every longer
run); and for `maxDuty = 255` exactly 215 are needed: `currentDuty` is 255 if and
only if there are at least 215 updates. -/
theorem ramp_converges_within_215 (s : VibrationControl) (t0 d maxDuty : Nat) (ts : List Nat)
    (hm : maxDuty < UINT8_MOD) (hs : Spaced t0 ts) (hd : ∀ x ∈ ts, ulongSub x t0 < d) :
    (215 ≤ ts.length →
      (run (s.start t0 d maxDuty) (updatesAt ts)).1.currentDuty = maxDuty) ∧
    (maxDuty = 255 →
      ((run (s.start t0 d maxDuty) (updatesAt ts)).1.currentDuty = 255 ↔ 215 ≤ ts.length)) := by
  have hrun := rampAfter_run t0 d maxDuty ts [] 0 t0 (s.start t0 d maxDuty).1 []
    (rampAfter_start s t0 d maxDuty) (by rw [List.append_nil]; exact hs) hd
  obtain ⟨prev1, hR, _⟩ := hrun
  rw [Nat.zero_add] at hR
  have hs0 : s.start t0 d maxDuty = ((s.start t0 d maxDuty).1, []) := rfl
  rw [← hs0] at hR
  obtain ⟨_, _, _, _, hb, hnb⟩ := hR
  have h215 : 215 ≤ ts.length →
      (run (s.start t0 d maxDuty) (updatesAt ts)).1.currentDuty = maxDuty :=
    fun hk => hnb (not_belowTarget_of_215_le maxDuty ts.length hm hk)
  refine ⟨h215, ?_⟩
  intro h255
  constructor
  · intro hc
    by_contra hk
    have hbt : belowTarget maxDuty ts.length := by
      rw [h255]; exact belowTarget_255_of_lt_215 _ (by omega)
    have h1 := (hb hbt).1
    have h2 := belowTarget_self _ _ hbt
    omega
  · intro hk
    rw [h215 hk, h255]

set_option maxRecDepth 100000 in
/-- Witness for C19: `start(2000, 255)` at reading 0 and 215 updates 5 ms apart
(the last at 1075 ms): `currentDuty` is 255; after 214 of them it is 230. -/
theorem ramp_converges_within_215_witness :
    (255 < UINT8_MOD ∧ Spaced 0 (readingsEvery 5 0 215) ∧
      (∀ x ∈ readingsEvery 5 0 215, ulongSub x 0 < 2000) ∧
      215 ≤ (readingsEvery 5 0 215).length) ∧
    (run ((VibrationControl.ctor 4 0 200 8 0 0).1.start 0 2000 255)
      (updatesAt (readingsEvery 5 0 215))).1.currentDuty = 255 ∧
    (run ((VibrationControl.ctor 4 0 200 8 0 0).1.start 0 2000 255)
      (updatesAt (readingsEvery 5 0 214))).1.currentDuty = 230 :=
  ⟨by decide,
   (ramp_converges_within_215 (VibrationControl.ctor 4 0 200 8 0 0).1 0 2000 255
     (readingsEvery 5 0 215) (by decide) (by decide) (by decide)).1 (by decide),
   by decide⟩

end OwlCompanion
